import Mathlib

/-!
Verification of the weekly review-pulse pipeline against its specification.

The development shallowly embeds the pure decision logic of the pipeline:

* `layer2_themes.py` — `ThemeLimitEnforcer.enforce_limit` (theme consolidation);
* `layer1_import.py` — `Deduplicator.filter_duplicates` / `mark_as_seen`;
* `layer3_content.py` — `PulseDocumentAssembler` (`assemble`, `_select_quotes`,
  `_count_words`, `_enforce_word_limit`);
* `layer4_distribution.py` — `PIIFinalCheck.check` / `verify_email`,
  `DeliverySystem.send_email`;
* `send_weekly_pulse.py` — the pre-send PII gate of `send_pulse_email`.

Python strings that are scanned character by character are modelled as
`List Char`; machine side effects (SMTP traffic, `time.sleep`, file writes)
are modelled by explicit parameters and returned state.  Python `sorted`
(stable sort) is modelled by a stable insertion sort on the same key.
-/

/-! ## Layer 2: `ThemeLimitEnforcer` (src/layer2_themes.py, lines 283-333) -/

/-- Theme record as produced by layer 2: the dict keys `cluster_id`,
`theme_name`, `description`, `size`, and the optional `merged_from` list that
only the synthetic merged theme carries. -/
structure Theme where
  cluster_id : Int
  theme_name : String
  description : String
  size : Nat
  merged_from : Option (List Int)
deriving DecidableEq, Repr

namespace ThemeLimitEnforcer

/-- Maximum number of reporting themes (`ThemeLimitEnforcer.MAX_THEMES`). -/
def MAX_THEMES : Nat := 5

/-- Stable insertion of a theme into a list ordered by `size` descending:
the new element goes in front of the first element whose size is `≤` its own,
so earlier-inserted elements of equal size stay in front. -/
def insertBySizeDesc (t : Theme) : List Theme → List Theme
  | [] => [t]
  | u :: us => if u.size ≤ t.size then t :: u :: us else u :: insertBySizeDesc t us

/-- Model of Python `sorted(themes, key=lambda x: x['size'], reverse=True)`:
a stable sort by member count descending (CPython's sort is stable, and
`reverse=True` does not reorder equal elements). -/
def sortBySizeDesc (ts : List Theme) : List Theme := ts.foldr insertBySizeDesc []

/-- Model of `ThemeLimitEnforcer.enforce_limit`.  The Python signature also
receives `reviews`, `labels` and `embeddings`, but the function body never
uses them, so they are omitted here. -/
def enforce_limit (themes : List Theme) : List Theme :=
  if themes.length ≤ MAX_THEMES then
    sortBySizeDesc themes
  else
    let sorted_themes := sortBySizeDesc themes
    let top_themes := sorted_themes.take (MAX_THEMES - 1)
    let merged_themes := sorted_themes.drop (MAX_THEMES - 1)
    let other_size := (merged_themes.map Theme.size).sum
    let other_cluster_ids := merged_themes.map Theme.cluster_id
    let other_theme : Theme :=
      { cluster_id := -2
        theme_name := "Other"
        description := "Mixed feedback on various topics"
        size := other_size
        merged_from := some other_cluster_ids }
    top_themes ++ [other_theme]

theorem insertBySizeDesc_perm (t : Theme) (l : List Theme) :
    List.Perm (insertBySizeDesc t l) (t :: l) := by
  induction l with
  | nil => rfl
  | cons u us ih =>
    by_cases h : u.size ≤ t.size
    · simp [insertBySizeDesc, h]
    · simp only [insertBySizeDesc, h, if_false]
      exact ((ih.cons u).trans (List.Perm.swap t u us))

theorem sortBySizeDesc_perm (l : List Theme) : List.Perm (sortBySizeDesc l) l := by
  induction l with
  | nil => rfl
  | cons x xs ih =>
    exact (insertBySizeDesc_perm x (sortBySizeDesc xs)).trans (ih.cons x)

theorem sortBySizeDesc_length (l : List Theme) :
    (sortBySizeDesc l).length = l.length :=
  (sortBySizeDesc_perm l).length_eq

theorem insertBySizeDesc_sorted {t : Theme} {l : List Theme}
    (h : l.Pairwise (fun a b => b.size ≤ a.size)) :
    (insertBySizeDesc t l).Pairwise (fun a b => b.size ≤ a.size) := by
  induction l with
  | nil => simp [insertBySizeDesc]
  | cons u us ih =>
    rcases List.pairwise_cons.mp h with ⟨hu, hus⟩
    by_cases hc : u.size ≤ t.size
    · simp only [insertBySizeDesc, hc, if_true]
      refine List.pairwise_cons.mpr ⟨?_, h⟩
      intro b hb
      rcases List.mem_cons.mp hb with hb | hb
      · subst hb; omega
      · exact le_trans (hu b hb) hc
    · simp only [insertBySizeDesc, hc, if_false]
      refine List.pairwise_cons.mpr ⟨?_, ih hus⟩
      intro b hb
      have hmem := (insertBySizeDesc_perm t us).mem_iff.mp hb
      rcases List.mem_cons.mp hmem with hb' | hb'
      · subst hb'; omega
      · exact hu b hb'

theorem sortBySizeDesc_sorted (l : List Theme) :
    (sortBySizeDesc l).Pairwise (fun a b => b.size ≤ a.size) := by
  induction l with
  | nil => simp [sortBySizeDesc]
  | cons x xs ih => exact insertBySizeDesc_sorted ih

theorem insertBySizeDesc_filter (t : Theme) (l : List Theme) (n : Nat) :
    (insertBySizeDesc t l).filter (fun u => decide (u.size = n)) =
      if t.size = n then
        t :: l.filter (fun u => decide (u.size = n))
      else
        l.filter (fun u => decide (u.size = n)) := by
  induction l with
  | nil => by_cases h : t.size = n <;> simp [insertBySizeDesc, h]
  | cons u us ih =>
    by_cases hc : u.size ≤ t.size
    · have he : insertBySizeDesc t (u :: us) = t :: u :: us := by
        simp [insertBySizeDesc, hc]
      rw [he]
      by_cases h : t.size = n <;> simp [List.filter_cons, h]
    · have he : insertBySizeDesc t (u :: us) = u :: insertBySizeDesc t us := by
        simp [insertBySizeDesc, hc]
      rw [he]
      by_cases h : t.size = n
      · have hu : ¬ u.size = n := by omega
        simp [List.filter_cons, h, hu, ih]
      · by_cases hu : u.size = n <;> simp [List.filter_cons, h, hu, ih]

theorem sortBySizeDesc_filter (l : List Theme) (n : Nat) :
    (sortBySizeDesc l).filter (fun u => decide (u.size = n)) =
      l.filter (fun u => decide (u.size = n)) := by
  induction l with
  | nil => rfl
  | cons x xs ih =>
    by_cases h : x.size = n <;>
      simp [sortBySizeDesc, insertBySizeDesc_filter, h, ih, List.filter_cons] <;>
      simpa [sortBySizeDesc] using ih

end ThemeLimitEnforcer

open ThemeLimitEnforcer in
/-- Example input of the spec's end-to-end consolidation example: 8 themes of
sizes 45, 38, 32, 28, 22, 15, 12, 8 with cluster ids 0..7. -/
def c1ExampleThemes : List Theme :=
  [ { cluster_id := 0, theme_name := "A", description := "", size := 45, merged_from := none },
    { cluster_id := 1, theme_name := "B", description := "", size := 38, merged_from := none },
    { cluster_id := 2, theme_name := "C", description := "", size := 32, merged_from := none },
    { cluster_id := 3, theme_name := "D", description := "", size := 28, merged_from := none },
    { cluster_id := 4, theme_name := "E", description := "", size := 22, merged_from := none },
    { cluster_id := 5, theme_name := "F", description := "", size := 15, merged_from := none },
    { cluster_id := 6, theme_name := "G", description := "", size := 12, merged_from := none },
    { cluster_id := 7, theme_name := "H", description := "", size := 8, merged_from := none } ]

/-- C1.  On the spec's own example (sizes [45,38,32,28,22,15,12,8], limit 5)
`enforce_limit` does NOT re-sort after merging: it returns the top four themes
followed by the merged "Other" bucket (size 57) in last position, i.e. size
order [45,38,32,28,57], not the claimed [57,45,38,32,28].  This contradicts
both the claim and the function's own docstring ("List of max 5 themes,
sorted by size"). -/
theorem c1_enforce_limit_appends_other_unsorted :
    (ThemeLimitEnforcer.enforce_limit c1ExampleThemes).map Theme.size = [45, 38, 32, 28, 57]
    ∧ (ThemeLimitEnforcer.enforce_limit c1ExampleThemes).map Theme.size ≠ [57, 45, 38, 32, 28]
    ∧ (ThemeLimitEnforcer.enforce_limit c1ExampleThemes).map Theme.theme_name =
        ["A", "B", "C", "D", "Other"] := by
  refine ⟨by decide, by decide, by decide⟩

/-- C2 counterexample.  The claim "for k > 5 exactly one output theme is named
\"Other\"" fails when an input theme is itself named "Other": with six input
themes, one of them named "Other" with size 100, the output contains two
themes named "Other" (the surviving input theme and the synthetic merged
bucket). -/
theorem c2_counterexample_other_name_collision :
    (ThemeLimitEnforcer.enforce_limit
        [ { cluster_id := 0, theme_name := "Other", description := "", size := 100, merged_from := none },
          { cluster_id := 1, theme_name := "A", description := "", size := 50, merged_from := none },
          { cluster_id := 2, theme_name := "B", description := "", size := 40, merged_from := none },
          { cluster_id := 3, theme_name := "C", description := "", size := 30, merged_from := none },
          { cluster_id := 4, theme_name := "D", description := "", size := 20, merged_from := none },
          { cluster_id := 5, theme_name := "E", description := "", size := 10, merged_from := none } ]).countP
      (fun t => decide (t.theme_name = "Other")) = 2 := by
  decide

/-- C2 (amended).  For every input of k themes `enforce_limit` returns exactly
min(k, 5) themes; for k > 5 the output is the top 4 themes by size followed by
a synthetic merged theme named "Other" whose size is the sum of the sizes of
all themes ranked below the top 4, and — provided no input theme is already
named "Other" — exactly one output theme is named "Other". -/
theorem c2_consolidation_bound_amended (themes : List Theme) :
    (ThemeLimitEnforcer.enforce_limit themes).length = min themes.length 5
    ∧ (5 < themes.length →
        (ThemeLimitEnforcer.enforce_limit themes =
          (ThemeLimitEnforcer.sortBySizeDesc themes).take 4 ++
            [{ cluster_id := -2, theme_name := "Other",
               description := "Mixed feedback on various topics",
               size := (((ThemeLimitEnforcer.sortBySizeDesc themes).drop 4).map Theme.size).sum,
               merged_from :=
                 some (((ThemeLimitEnforcer.sortBySizeDesc themes).drop 4).map Theme.cluster_id) }])
        ∧ (themes.countP (fun t => decide (t.theme_name = "Other")) = 0 →
            (ThemeLimitEnforcer.enforce_limit themes).countP
              (fun t => decide (t.theme_name = "Other")) = 1)) := by
  have hlen := ThemeLimitEnforcer.sortBySizeDesc_length themes
  constructor
  · by_cases h : themes.length ≤ 5
    · simp only [ThemeLimitEnforcer.enforce_limit, ThemeLimitEnforcer.MAX_THEMES, h, if_true, hlen]
      omega
    · simp only [ThemeLimitEnforcer.enforce_limit, ThemeLimitEnforcer.MAX_THEMES, h, if_false,
        List.length_append, List.length_take, List.length_cons, List.length_nil, hlen]
      omega
  · intro h5
    have h : ¬ themes.length ≤ 5 := by omega
    constructor
    · simp only [ThemeLimitEnforcer.enforce_limit, ThemeLimitEnforcer.MAX_THEMES, h, if_false]
    · intro h0
      have hnone : ∀ t ∈ themes, ¬ (decide (t.theme_name = "Other") = true) :=
        List.countP_eq_zero.mp h0
      simp only [ThemeLimitEnforcer.enforce_limit, ThemeLimitEnforcer.MAX_THEMES, h, if_false]
      rw [List.countP_append]
      have htop : ((ThemeLimitEnforcer.sortBySizeDesc themes).take (5 - 1)).countP
          (fun t => decide (t.theme_name = "Other")) = 0 := by
        apply List.countP_eq_zero.mpr
        intro t ht
        have hmem : t ∈ ThemeLimitEnforcer.sortBySizeDesc themes := List.mem_of_mem_take ht
        have : t ∈ themes := (ThemeLimitEnforcer.sortBySizeDesc_perm themes).mem_iff.mp hmem
        exact hnone t this
      rw [htop]
      simp [List.countP_cons]

/-- C2 witness: a concrete 6-theme batch where the amended claim's hypotheses
hold. -/
theorem c2_witness :
    (ThemeLimitEnforcer.enforce_limit c1ExampleThemes).length = min c1ExampleThemes.length 5
    ∧ (ThemeLimitEnforcer.enforce_limit c1ExampleThemes).countP
        (fun t => decide (t.theme_name = "Other")) = 1 :=
  ⟨(c2_consolidation_bound_amended c1ExampleThemes).1,
   ((c2_consolidation_bound_amended c1ExampleThemes).2 (by decide)).2 (by decide)⟩

/-- C7 counterexample.  Ties are NOT broken by ascending original cluster id:
two equal-sized themes with cluster ids 5 and 2, given in input order [5, 2],
come out in order [5, 2] (Python's sort is stable and keeps input order),
while the claim requires ascending cluster-id order [2, 5]. -/
theorem c7_counterexample_tie_break :
    (ThemeLimitEnforcer.enforce_limit
        [ { cluster_id := 5, theme_name := "X", description := "", size := 10, merged_from := none },
          { cluster_id := 2, theme_name := "Y", description := "", size := 10, merged_from := none } ]).map
      Theme.cluster_id = [5, 2]
    ∧ ([5, 2] : List Int) ≠ [2, 5] := by
  refine ⟨by decide, by decide⟩

/-- C7 (amended).  For input lists of at most `MAX_THEMES` themes, in every
input order, `enforce_limit` returns a permutation of the input sorted by
member count descending, and ties between equal-sized themes keep their
relative input order (stable sort), rather than being ordered by ascending
cluster id. -/
theorem c7_sort_stable_amended (themes : List Theme) (h : themes.length ≤ 5) :
    ThemeLimitEnforcer.enforce_limit themes = ThemeLimitEnforcer.sortBySizeDesc themes
    ∧ List.Pairwise (fun a b => b.size ≤ a.size) (ThemeLimitEnforcer.enforce_limit themes)
    ∧ List.Perm (ThemeLimitEnforcer.enforce_limit themes) themes
    ∧ ∀ n, (ThemeLimitEnforcer.enforce_limit themes).filter (fun t => decide (t.size = n)) =
        themes.filter (fun t => decide (t.size = n)) := by
  have he : ThemeLimitEnforcer.enforce_limit themes = ThemeLimitEnforcer.sortBySizeDesc themes := by
    simp only [ThemeLimitEnforcer.enforce_limit, ThemeLimitEnforcer.MAX_THEMES, h, if_true]
  refine ⟨he, ?_, ?_, ?_⟩
  · rw [he]; exact ThemeLimitEnforcer.sortBySizeDesc_sorted themes
  · rw [he]; exact ThemeLimitEnforcer.sortBySizeDesc_perm themes
  · intro n; rw [he]; exact ThemeLimitEnforcer.sortBySizeDesc_filter themes n

/-- C7 witness: the amended claim applied to a concrete 3-theme input with a
tie. -/
theorem c7_witness :
    ([ { cluster_id := 5, theme_name := "X", description := "", size := 10, merged_from := none },
       { cluster_id := 2, theme_name := "Y", description := "", size := 10, merged_from := none },
       { cluster_id := 9, theme_name := "Z", description := "", size := 30, merged_from := none } ] :
      List Theme).length ≤ 5
    ∧ ThemeLimitEnforcer.enforce_limit
        [ { cluster_id := 5, theme_name := "X", description := "", size := 10, merged_from := none },
          { cluster_id := 2, theme_name := "Y", description := "", size := 10, merged_from := none },
          { cluster_id := 9, theme_name := "Z", description := "", size := 30, merged_from := none } ] =
      ThemeLimitEnforcer.sortBySizeDesc
        [ { cluster_id := 5, theme_name := "X", description := "", size := 10, merged_from := none },
          { cluster_id := 2, theme_name := "Y", description := "", size := 10, merged_from := none },
          { cluster_id := 9, theme_name := "Z", description := "", size := 30, merged_from := none } ] :=
  ⟨by decide,
   (c7_sort_stable_amended
      [ { cluster_id := 5, theme_name := "X", description := "", size := 10, merged_from := none },
        { cluster_id := 2, theme_name := "Y", description := "", size := 10, merged_from := none },
        { cluster_id := 9, theme_name := "Z", description := "", size := 30, merged_from := none } ]
      (by decide)).1⟩

/-! ## Layer 1: `Deduplicator` (src/layer1_import.py, lines 131-193) -/

/-- Review record with the fields `compute_hash` inspects: the native
`reviewId` key, the review text (`content`) and the ISO timestamp string of
the `at` field. -/
structure Review where
  reviewId : String
  content : String
  atTime : String
deriving DecidableEq, Repr

namespace Deduplicator

/-- Model of `Deduplicator.compute_hash`: use the native `reviewId` when
non-empty, otherwise hash `content|timestamp`.  The SHA-256 hex digest is an
opaque cryptographic primitive and is abstracted as the function parameter
`sha256hex`. -/
def compute_hash (sha256hex : String → String) (r : Review) : String :=
  if r.reviewId ≠ "" then r.reviewId
  else sha256hex (r.content ++ "|" ++ r.atTime)

/-- Loop body of `filter_duplicates`: skip a review whose identity key is
already in `seen_ids`, otherwise accept it and add its key to `seen_ids`. -/
def dedupStep (sha256hex : String → String) (acc : List Review × Finset String)
    (r : Review) : List Review × Finset String :=
  let rid := compute_hash sha256hex r
  if rid ∈ acc.2 then acc else (acc.1 ++ [r], insert rid acc.2)

/-- Model of `Deduplicator.filter_duplicates`: returns the accepted (unseen)
reviews and the updated `seen_ids` set.  The best-effort `_save_state` disk
write is a side effect outside the data model. -/
def filter_duplicates (sha256hex : String → String) (seen : Finset String)
    (reviews : List Review) : List Review × Finset String :=
  reviews.foldl (dedupStep sha256hex) ([], seen)

/-- Model of `Deduplicator.mark_as_seen`: add every review's identity key to
`seen_ids` without filtering. -/
def mark_as_seen (sha256hex : String → String) (seen : Finset String)
    (reviews : List Review) : Finset String :=
  reviews.foldl (fun s r => insert (compute_hash sha256hex r) s) seen

theorem foldl_dedupStep_seen_subset (sha : String → String) (rs : List Review) :
    ∀ acc : List Review × Finset String, acc.2 ⊆ (rs.foldl (dedupStep sha) acc).2 := by
  induction rs with
  | nil => intro acc; exact Finset.Subset.refl _
  | cons r rs ih =>
    intro acc
    refine Finset.Subset.trans ?_ (ih (dedupStep sha acc r))
    unfold dedupStep
    by_cases h : compute_hash sha r ∈ acc.2
    · simp [h]
    · simp only [h, if_false]
      exact Finset.subset_insert _ _

theorem foldl_dedupStep_mem_seen (sha : String → String) (rs : List Review) :
    ∀ acc : List Review × Finset String, ∀ r ∈ rs,
      compute_hash sha r ∈ (rs.foldl (dedupStep sha) acc).2 := by
  induction rs with
  | nil => intro acc r hr; cases hr
  | cons x xs ih =>
    intro acc r hr
    rcases List.mem_cons.mp hr with hr | hr
    · rw [hr]
      simp only [List.foldl_cons]
      refine foldl_dedupStep_seen_subset sha xs (dedupStep sha acc x) ?_
      unfold dedupStep
      by_cases h : compute_hash sha x ∈ acc.2
      · simp [h]
      · simp [h]
    · simpa using ih (dedupStep sha acc x) r hr

theorem foldl_dedupStep_no_new (sha : String → String) (rs : List Review) :
    ∀ acc : List Review × Finset String,
      (∀ r ∈ rs, compute_hash sha r ∈ acc.2) → rs.foldl (dedupStep sha) acc = acc := by
  induction rs with
  | nil => intro acc _; rfl
  | cons x xs ih =>
    intro acc hall
    have hx : compute_hash sha x ∈ acc.2 := hall x (List.mem_cons_self x xs)
    have hstep : dedupStep sha acc x = acc := by unfold dedupStep; simp [hx]
    simp only [List.foldl_cons, hstep]
    exact ih acc (fun r hr => hall r (List.mem_cons_of_mem x hr))

end Deduplicator

/-- C5.  Deduplication is idempotent and the identity store is monotone:
`filter_duplicates` and `mark_as_seen` never remove keys from `seen_ids`
(the set only grows), and a second `filter_duplicates` run over a batch whose
reviews were all accepted in the first run accepts zero records. -/
theorem c5_dedup_idempotent_monotone (sha : String → String) (seen : Finset String)
    (batch : List Review) :
    seen ⊆ (Deduplicator.filter_duplicates sha seen batch).2
    ∧ seen ⊆ Deduplicator.mark_as_seen sha seen batch
    ∧ ((Deduplicator.filter_duplicates sha seen batch).1 = batch →
        (Deduplicator.filter_duplicates sha
          (Deduplicator.filter_duplicates sha seen batch).2 batch).1 = []) := by
  refine ⟨?_, ?_, ?_⟩
  · exact Deduplicator.foldl_dedupStep_seen_subset sha batch ([], seen)
  · unfold Deduplicator.mark_as_seen
    induction batch generalizing seen with
    | nil => exact Finset.Subset.refl _
    | cons r rs ih =>
      simp only [List.foldl_cons]
      exact Finset.Subset.trans (Finset.subset_insert _ _)
        (ih (insert (Deduplicator.compute_hash sha r) seen))
  · intro _
    have hall : ∀ r ∈ batch,
        Deduplicator.compute_hash sha r ∈ (Deduplicator.filter_duplicates sha seen batch).2 :=
      Deduplicator.foldl_dedupStep_mem_seen sha batch ([], seen)
    have := Deduplicator.foldl_dedupStep_no_new sha batch
      ([], (Deduplicator.filter_duplicates sha seen batch).2) hall
    exact congrArg Prod.fst this

/-- C5 witness: a concrete one-review batch, fresh store, identity hash
function; the first run accepts the review, the second run accepts nothing. -/
theorem c5_witness :
    (Deduplicator.filter_duplicates id ∅ [⟨"r1", "great app", "2024-01-01"⟩]).1 =
      [⟨"r1", "great app", "2024-01-01"⟩]
    ∧ (Deduplicator.filter_duplicates id
        (Deduplicator.filter_duplicates id ∅ [⟨"r1", "great app", "2024-01-01"⟩]).2
        [⟨"r1", "great app", "2024-01-01"⟩]).1 = [] :=
  ⟨by decide,
   (c5_dedup_idempotent_monotone id ∅ [⟨"r1", "great app", "2024-01-01"⟩]).2.2 (by decide)⟩

/-! ## String utilities shared by the layer-3 and layer-4 models

Python strings are modelled as `List Char`.  `wordCount` models
`len(s.split())` (number of maximal runs of non-whitespace characters),
`joinSpace` models `' '.join(parts)`, and `pySplit` models `s.split()`. -/

/-- Character list of a Lean string literal (used to embed Python string
literals). -/
def chars (s : String) : List Char := s.data

/-- Whitespace characters recognised by Python `str.split()` (ASCII range). -/
def isSpaceChar (c : Char) : Bool :=
  decide (c = ' ') || decide (c = '\t') || decide (c = '\n') ||
    decide (c = '\x0b') || decide (c = '\x0c') || decide (c = '\r')

/-- Word counter: `wcAux inWord s` counts the maximal non-whitespace runs of
`s`, where `inWord` records whether the character just before `s` was part of
a word. -/
def wcAux (inWord : Bool) : List Char → Nat
  | [] => 0
  | c :: cs =>
    if isSpaceChar c then wcAux false cs
    else (if inWord then 0 else 1) + wcAux true cs

/-- Model of Python `len(s.split())`. -/
def wordCount (s : List Char) : Nat := wcAux false s

/-- Model of Python `' '.join(parts)`. -/
def joinSpace : List (List Char) → List Char
  | [] => []
  | [p] => p
  | p :: q :: rest => p ++ ' ' :: joinSpace (q :: rest)

/-- Helper for `pySplit`: `acc` holds the reversed characters of the word in
progress. -/
def pySplitAux (acc : List Char) : List Char → List (List Char)
  | [] => if acc.isEmpty then [] else [acc.reverse]
  | c :: cs =>
    if isSpaceChar c then
      if acc.isEmpty then pySplitAux [] cs else acc.reverse :: pySplitAux [] cs
    else pySplitAux (c :: acc) cs

/-- Model of Python `s.split()` (split on whitespace runs, dropping empties). -/
def pySplit (s : List Char) : List (List Char) := pySplitAux [] s

theorem wcAux_le_append (p q : List Char) : ∀ b, wcAux b p ≤ wcAux b (p ++ q) := by
  induction p with
  | nil => intro b; exact Nat.zero_le _
  | cons c cs ih =>
    intro b
    by_cases h : isSpaceChar c = true
    · simpa [wcAux, h] using ih false
    · simp only [List.cons_append, wcAux, h, if_false]
      exact Nat.add_le_add_left (ih true) _

theorem wcAux_mono_append {s t : List Char} (h : ∀ b, wcAux b s ≤ wcAux b t) :
    ∀ p b, wcAux b (p ++ s) ≤ wcAux b (p ++ t) := by
  intro p
  induction p with
  | nil => intro b; exact h b
  | cons c cs ih =>
    intro b
    by_cases hc : isSpaceChar c = true
    · simpa [wcAux, hc] using ih false
    · simp only [List.cons_append, wcAux, hc, if_false]
      exact Nat.add_le_add_left (ih true) _

theorem wcAux_append_space (a r : List Char) :
    ∀ b, wcAux b (a ++ ' ' :: r) = wcAux b a + wcAux false r := by
  induction a with
  | nil => intro b; simp [wcAux, isSpaceChar]
  | cons c cs ih =>
    intro b
    by_cases h : isSpaceChar c = true
    · have l1 : wcAux b ((c :: cs) ++ ' ' :: r) = wcAux false (cs ++ ' ' :: r) := by
        simp [wcAux, h]
      have l2 : wcAux b (c :: cs) = wcAux false cs := by simp [wcAux, h]
      rw [l1, l2, ih false]
    · have l1 : wcAux b ((c :: cs) ++ ' ' :: r) =
          (if b = true then 0 else 1) + wcAux true (cs ++ ' ' :: r) := by
        simp [wcAux, h]
      have l2 : wcAux b (c :: cs) = (if b = true then 0 else 1) + wcAux true cs := by
        simp [wcAux, h]
      rw [l1, l2, ih true]
      omega

theorem wordCount_joinSpace (ps : List (List Char)) :
    wordCount (joinSpace ps) = (ps.map wordCount).sum := by
  induction ps with
  | nil => rfl
  | cons p ps ih =>
    cases ps with
    | nil => simp [joinSpace, wordCount]
    | cons q rest =>
      simp only [joinSpace, List.map_cons, List.sum_cons]
      rw [wordCount, wcAux_append_space]
      rw [wordCount] at ih
      rw [ih]
      simp only [List.map_cons, List.sum_cons]
      rfl

/-! ## Layer 3: `PulseDocumentAssembler` (src/layer3_content.py, lines 310-461) -/

/-- Test for the Python substring check `'. ' in summary`. -/
def hasDotSpace : List Char → Bool
  | c :: d :: rest => decide (c = '.' ∧ d = ' ') || hasDotSpace (d :: rest)
  | _ => false

/-- Characters before the first occurrence of `". "` (Python
`summary.split('. ')[0]`). -/
def beforeDotSpace : List Char → List Char
  | c :: d :: rest => if c = '.' ∧ d = ' ' then [] else c :: beforeDotSpace (d :: rest)
  | l => l

/-- Characters after the first occurrence of `". "`. -/
def afterDotSpace : List Char → List Char
  | c :: d :: rest => if c = '.' ∧ d = ' ' then rest else afterDotSpace (d :: rest)
  | _ => []

/-- Model of the compression step
`summary.split('. ')[0] + '.' if '. ' in summary else summary`. -/
def firstSentence (s : List Char) : List Char :=
  if hasDotSpace s then beforeDotSpace s ++ ['.'] else s

theorem dotSpace_decomp :
    ∀ s : List Char, hasDotSpace s = true →
      s = beforeDotSpace s ++ '.' :: ' ' :: afterDotSpace s := by
  intro s
  induction s with
  | nil => intro h; simp [hasDotSpace] at h
  | cons c rest ih =>
    cases rest with
    | nil => intro h; simp [hasDotSpace] at h
    | cons d rest2 =>
      intro h
      by_cases hc : c = '.' ∧ d = ' '
      · obtain ⟨h1, h2⟩ := hc
        rw [h1, h2]
        have hb : beforeDotSpace ('.' :: ' ' :: rest2) = [] := by
          simp [beforeDotSpace]
        have ha : afterDotSpace ('.' :: ' ' :: rest2) = rest2 := by
          simp [afterDotSpace]
        rw [hb, ha]
        rfl
      · have h' : hasDotSpace (d :: rest2) = true := by
          have hh := h
          simp only [hasDotSpace, Bool.or_eq_true, decide_eq_true_eq] at hh
          rcases hh with h1 | h1
          · exact absurd h1 hc
          · exact h1
        have hb : beforeDotSpace (c :: d :: rest2) = c :: beforeDotSpace (d :: rest2) := by
          simp [beforeDotSpace, hc]
        have ha : afterDotSpace (c :: d :: rest2) = afterDotSpace (d :: rest2) := by
          simp [afterDotSpace, hc]
        rw [hb, ha, List.cons_append]
        exact congrArg (c :: ·) (ih h')

theorem wcAux_firstSentence_le (s : List Char) (b : Bool) :
    wcAux b (firstSentence s) ≤ wcAux b s := by
  unfold firstSentence
  by_cases h : hasDotSpace s = true
  · rw [if_pos h]
    conv_rhs => rw [dotSpace_decomp s h]
    have he : beforeDotSpace s ++ '.' :: ' ' :: afterDotSpace s =
        (beforeDotSpace s ++ ['.']) ++ (' ' :: afterDotSpace s) := by
      simp
    rw [he]
    exact wcAux_le_append _ _ b
  · rw [if_neg h]

/-- Theme record as consumed by layer 3: the dict keys `theme_name`,
`summary` (defaulted to the empty string by `t.get('summary', '')`) and
`size`. -/
structure L3Theme where
  theme_name : List Char
  summary : List Char
  size : Nat
deriving DecidableEq, Repr

/-- Quote dict as produced by `QuoteExtractor.extract`: keys `text`,
`confidence`, `source_id`, `theme`.  The float confidence is modelled as an
exact rational. -/
structure Quote where
  text : List Char
  confidence : ℚ
  source_id : List Char
  theme : List Char
deriving DecidableEq, Repr

/-- Theme entry of the assembled pulse document (`name`, `summary`, `size`). -/
structure DocTheme where
  name : List Char
  summary : List Char
  size : Nat
deriving DecidableEq, Repr

/-- Assembled pulse document: content fields plus the metadata dict
(`product`, `week_start`, `week_end`, `total_reviews`, `word_count`). -/
structure PulseDocument where
  title : List Char
  overview : List Char
  themes : List DocTheme
  quotes : List (List Char)
  actions : List (List Char)
  product : List Char
  week_start : List Char
  week_end : List Char
  total_reviews : Nat
  word_count : Nat
deriving DecidableEq, Repr

namespace PulseDocumentAssembler

/-- Word budget (`PulseDocumentAssembler.MAX_WORDS`). -/
def MAX_WORDS : Nat := 250

/-- One step of the first selection loop of `_select_quotes`: for a theme
name, append the first quote of that theme when one exists and fewer than 3
quotes are selected. -/
def themeStep (all_quotes : List Quote) (sel : List Quote) (tn : List Char) : List Quote :=
  match all_quotes.filter (fun q => decide (q.theme = tn)) with
  | [] => sel
  | q :: _ => if sel.length < 3 then sel ++ [q] else sel

/-- One step of the fill loop of `_select_quotes`: append a pool quote not yet
selected while fewer than 3 quotes are selected. -/
def fillStep (sel : List Quote) (q : Quote) : List Quote :=
  if q ∉ sel ∧ sel.length < 3 then sel ++ [q] else sel

/-- Model of `PulseDocumentAssembler._select_quotes`. -/
def select_quotes (all_quotes : List Quote) (top_themes : List L3Theme) : List Quote :=
  let selected1 := (top_themes.map L3Theme.theme_name).foldl (themeStep all_quotes) []
  let selected2 := all_quotes.foldl fillStep selected1
  selected2.take 3

/-- Text parts whose whitespace-delimited tokens `_count_words` counts:
title, overview, one "name: summary" string per theme, quotes, actions. -/
def docParts (d : PulseDocument) : List (List Char) :=
  [d.title, d.overview] ++
    d.themes.map (fun t => t.name ++ chars ": " ++ t.summary) ++
    d.quotes ++ d.actions

/-- Model of `PulseDocumentAssembler._count_words`:
`len(' '.join(text_parts).split())`. -/
def count_words (d : PulseDocument) : Nat := wordCount (joinSpace (docParts d))

/-- The single compression pass: every theme summary reduced to its first
sentence. -/
def compressSummaries (d : PulseDocument) : PulseDocument :=
  { d with themes := d.themes.map (fun t => { t with summary := firstSentence t.summary }) }

/-- Model of `PulseDocumentAssembler._enforce_word_limit`: store the word
count; if above `MAX_WORDS`, compress every summary to its first sentence
and recount exactly once. -/
def enforce_word_limit (d : PulseDocument) : PulseDocument :=
  let word_count := count_words d
  let d1 : PulseDocument := { d with word_count := word_count }
  if word_count ≤ MAX_WORDS then d1
  else
    let d2 := compressSummaries d1
    { d2 with word_count := count_words d2 }

/-- Model of `PulseDocumentAssembler._generate_title`. -/
def generate_title (product_name : List Char) : List Char :=
  chars "Weekly Product Pulse – " ++ product_name

/-- Model of `PulseDocumentAssembler._generate_overview` (templated sentence,
hard-truncated at 60 words). -/
def generate_overview (themes : List L3Theme) : List Char :=
  let total_reviews := (themes.map L3Theme.size).sum
  let top_theme := match themes with
    | [] => chars "user feedback"
    | t :: _ => t.theme_name
  let overview :=
    chars "This week's " ++ chars (toString total_reviews) ++
      chars " user reviews highlight key areas for improvement. Top concern: " ++
      top_theme ++ chars ". Analysis covers " ++ chars (toString themes.length) ++
      chars " themes with actionable recommendations."
  let words := pySplit overview
  if 60 < words.length then joinSpace (words.take 60) ++ chars "..." else overview

/-- Model of `PulseDocumentAssembler.assemble`. -/
def assemble (product_name week_start week_end : List Char)
    (themes : List L3Theme) (quotes : List Quote) (actions : List (List Char)) :
    PulseDocument :=
  let title := generate_title product_name
  let overview := generate_overview themes
  let top_themes := themes.take 3
  let selected_quotes := select_quotes quotes top_themes
  let document : PulseDocument :=
    { title := title
      overview := overview
      themes := top_themes.map (fun t =>
        { name := t.theme_name, summary := t.summary, size := t.size })
      quotes := selected_quotes.map Quote.text
      actions := actions.take 3
      product := product_name
      week_start := week_start
      week_end := week_end
      total_reviews := (themes.map L3Theme.size).sum
      word_count := 0 }
  enforce_word_limit document

theorem count_words_compress_le (d : PulseDocument) :
    count_words (compressSummaries d) ≤ count_words d := by
  unfold count_words compressSummaries docParts
  rw [wordCount_joinSpace, wordCount_joinSpace]
  simp only [List.map_append, List.sum_append, List.map_map, List.map_cons, List.sum_cons,
    List.map_nil, List.sum_nil, Function.comp_def]
  have hth : ((d.themes.map fun t =>
        wordCount (t.name ++ chars ": " ++ firstSentence t.summary)).sum) ≤
      (d.themes.map fun t => wordCount (t.name ++ chars ": " ++ t.summary)).sum := by
    apply List.sum_le_sum
    intro t _
    have hfs : ∀ b, wcAux b (firstSentence t.summary) ≤ wcAux b t.summary :=
      fun b => wcAux_firstSentence_le t.summary b
    have hmono := wcAux_mono_append hfs (t.name ++ chars ": ") false
    simpa [wordCount, List.append_assoc] using hmono
  omega

theorem enforce_word_limit_quotes (d : PulseDocument) :
    (enforce_word_limit d).quotes = d.quotes := by
  unfold enforce_word_limit
  by_cases h : count_words d ≤ MAX_WORDS
  · simp [h]
  · simp [h, compressSummaries]

end PulseDocumentAssembler

namespace PulseDocumentAssembler

theorem themeFold_length_le (aq : List Quote) (tns : List (List Char)) :
    ∀ sel : List Quote, sel.length ≤ 3 → ((tns.foldl (themeStep aq) sel).length ≤ 3) := by
  induction tns with
  | nil => intro sel h; exact h
  | cons tn tns ih =>
    intro sel h
    refine ih _ ?_
    unfold themeStep
    cases aq.filter (fun q => decide (q.theme = tn)) with
    | nil => exact h
    | cons q rest =>
      by_cases hl : sel.length < 3
      · simp only [hl, if_true, List.length_append, List.length_cons, List.length_nil]
        omega
      · simp only [hl, if_false]
        exact h

theorem fillFold_subset (l : List Quote) :
    ∀ sel : List Quote, sel ⊆ l.foldl fillStep sel := by
  induction l with
  | nil => intro sel x hx; exact hx
  | cons q l ih =>
    intro sel
    refine List.Subset.trans ?_ (ih (fillStep sel q))
    unfold fillStep
    by_cases h : q ∉ sel ∧ sel.length < 3
    · rw [if_pos h]; exact List.subset_append_left _ _
    · rw [if_neg h]; exact fun x hx => hx

theorem fillFold_length_le (l : List Quote) :
    ∀ sel : List Quote, sel.length ≤ 3 → (l.foldl fillStep sel).length ≤ 3 := by
  induction l with
  | nil => intro sel h; exact h
  | cons q l ih =>
    intro sel h
    refine ih _ ?_
    unfold fillStep
    by_cases hc : q ∉ sel ∧ sel.length < 3
    · rw [if_pos hc]
      simp only [List.length_append, List.length_cons, List.length_nil]
      omega
    · rw [if_neg hc]; exact h

theorem fillFold_fix (l : List Quote) :
    ∀ sel : List Quote, ¬ sel.length < 3 → l.foldl fillStep sel = sel := by
  induction l with
  | nil => intro sel _; rfl
  | cons q l ih =>
    intro sel h
    have hstep : fillStep sel q = sel := by
      unfold fillStep
      rw [if_neg]
      intro hc
      exact h hc.2
    simp only [List.foldl_cons, hstep]
    exact ih sel h

theorem fillFold_three_or_all (l : List Quote) :
    ∀ sel : List Quote, sel.length ≤ 3 →
      (l.foldl fillStep sel).length = 3 ∨ ∀ q ∈ l, q ∈ l.foldl fillStep sel := by
  induction l with
  | nil => intro sel _; right; intro q hq; cases hq
  | cons x l ih =>
    intro sel hsel
    simp only [List.foldl_cons]
    by_cases hx : x ∉ sel ∧ sel.length < 3
    · have hstep : fillStep sel x = sel ++ [x] := by unfold fillStep; rw [if_pos hx]
      rw [hstep]
      have hlen : (sel ++ [x]).length ≤ 3 := by
        simp only [List.length_append, List.length_cons, List.length_nil]
        omega
      rcases ih (sel ++ [x]) hlen with h3 | hall
      · left; exact h3
      · right
        intro q hq
        rcases List.mem_cons.mp hq with hq | hq
        · rw [hq]
          exact fillFold_subset l (sel ++ [x]) (by simp)
        · exact hall q hq
    · have hstep : fillStep sel x = sel := by unfold fillStep; rw [if_neg hx]
      rw [hstep]
      rcases not_and_or.mp hx with hmem | hlen
      · have hxin : x ∈ sel := not_not.mp hmem
        rcases ih sel hsel with h3 | hall
        · left; exact h3
        · right
          intro q hq
          rcases List.mem_cons.mp hq with hq | hq
          · rw [hq]; exact fillFold_subset l sel hxin
          · exact hall q hq
      · left
        rw [fillFold_fix l sel hlen]
        omega

theorem select_quotes_length_le (aq : List Quote) (tt : List L3Theme) :
    (select_quotes aq tt).length ≤ 3 := by
  unfold select_quotes
  simp only [List.length_take]
  exact Nat.min_le_left _ _

theorem select_quotes_length_eq (aq : List Quote) (tt : List L3Theme)
    (h : 3 ≤ aq.dedup.length) : (select_quotes aq tt).length = 3 := by
  unfold select_quotes
  have h1 : ((tt.map L3Theme.theme_name).foldl (themeStep aq) []).length ≤ 3 :=
    themeFold_length_le aq _ [] (by simp)
  have h2 : (aq.foldl fillStep ((tt.map L3Theme.theme_name).foldl (themeStep aq) [])).length ≤ 3 :=
    fillFold_length_le aq _ h1
  rcases fillFold_three_or_all aq _ h1 with h3 | hall
  · simp only [List.length_take]
    omega
  · have hsub : aq.dedup ⊆ aq.foldl fillStep ((tt.map L3Theme.theme_name).foldl (themeStep aq) []) :=
      fun x hx => hall x (List.mem_dedup.mp hx)
    have hsp := List.subperm_of_subset (List.nodup_dedup aq) hsub
    have hlen3 := le_trans h hsp.length_le
    simp only [List.length_take]
    omega

theorem assemble_quotes (pn ws we : List Char) (themes : List L3Theme)
    (quotes : List Quote) (actions : List (List Char)) :
    (assemble pn ws we themes quotes actions).quotes =
      (select_quotes quotes (themes.take 3)).map Quote.text := by
  unfold assemble
  rw [enforce_word_limit_quotes]

end PulseDocumentAssembler

/-- C6.  When the document's word count exceeds 250, `_enforce_word_limit`
performs exactly one compression pass (every theme summary reduced to its
first sentence) and recomputes the count once, and the word count after the
single pass is at most the word count before it. -/
theorem c6_word_budget_single_pass (d : PulseDocument)
    (h : 250 < PulseDocumentAssembler.count_words d) :
    PulseDocumentAssembler.enforce_word_limit d =
      { PulseDocumentAssembler.compressSummaries d with
          word_count :=
            PulseDocumentAssembler.count_words (PulseDocumentAssembler.compressSummaries d) }
    ∧ PulseDocumentAssembler.count_words (PulseDocumentAssembler.compressSummaries d) ≤
        PulseDocumentAssembler.count_words d := by
  constructor
  · unfold PulseDocumentAssembler.enforce_word_limit
    rw [if_neg (by simp only [PulseDocumentAssembler.MAX_WORDS]; omega)]
    rfl
  · exact PulseDocumentAssembler.count_words_compress_le d

/-- Over-budget example document for the C6 witness: 251 one-word quotes. -/
def c6ExampleDoc : PulseDocument :=
  { title := chars "T"
    overview := []
    themes := []
    quotes := List.replicate 251 ['a']
    actions := []
    product := []
    week_start := []
    week_end := []
    total_reviews := 0
    word_count := 0 }

set_option maxRecDepth 100000 in
/-- C6 witness: the example document exceeds the budget and the single
compression pass does not increase its word count. -/
theorem c6_witness :
    250 < PulseDocumentAssembler.count_words c6ExampleDoc
    ∧ PulseDocumentAssembler.count_words
        (PulseDocumentAssembler.compressSummaries c6ExampleDoc) ≤
        PulseDocumentAssembler.count_words c6ExampleDoc :=
  ⟨by decide, (c6_word_budget_single_pass c6ExampleDoc (by decide)).2⟩

set_option maxRecDepth 100000 in
/-- C8 counterexample.  With an empty quote pool the assembled document
contains zero quotes, not exactly 3: "for every themes/quotePool/actions
input, the document contains exactly 3 quotes" is false. -/
theorem c8_counterexample_empty_pool :
    ¬ ((PulseDocumentAssembler.assemble (chars "Groww") (chars "2024-01-01")
          (chars "2024-01-07") [] [] []).quotes.length = 3) := by
  decide

/-- C8 (amended).  The assembled document contains at most 3 quotes, and
exactly 3 whenever the quote pool contains at least 3 pairwise-distinct
quotes; with a smaller pool the selection stops when the pool is exhausted. -/
theorem c8_exactly_three_quotes_amended (pn ws we : List Char)
    (themes : List L3Theme) (quotes : List Quote) (actions : List (List Char)) :
    (PulseDocumentAssembler.assemble pn ws we themes quotes actions).quotes.length ≤ 3
    ∧ (3 ≤ quotes.dedup.length →
        (PulseDocumentAssembler.assemble pn ws we themes quotes actions).quotes.length = 3) := by
  rw [PulseDocumentAssembler.assemble_quotes, List.length_map]
  exact ⟨PulseDocumentAssembler.select_quotes_length_le quotes (themes.take 3),
    fun h => PulseDocumentAssembler.select_quotes_length_eq quotes (themes.take 3) h⟩

/-- Quote pool with three distinct entries for the C8 witness. -/
def c8ExampleQuotes : List Quote :=
  [ { text := chars "the KYC flow keeps rejecting my documents for no reason",
      confidence := 0, source_id := chars "r1", theme := chars "KYC" },
    { text := chars "withdrawals have been pending for three days now",
      confidence := 0, source_id := chars "r2", theme := chars "Payments" },
    { text := chars "charts are great for beginners and easy to read",
      confidence := 0, source_id := chars "r3", theme := chars "UX" } ]

/-- C8 witness: with a pool of three distinct quotes the assembled document
has exactly 3 quotes. -/
theorem c8_witness :
    3 ≤ c8ExampleQuotes.dedup.length
    ∧ (PulseDocumentAssembler.assemble (chars "Groww") (chars "2024-01-01")
        (chars "2024-01-07") [] c8ExampleQuotes []).quotes.length = 3 :=
  ⟨by decide,
   (c8_exactly_three_quotes_amended (chars "Groww") (chars "2024-01-01")
      (chars "2024-01-07") [] c8ExampleQuotes []).2 (by decide)⟩

/-! ## Layer 4: `PIIFinalCheck` (src/layer4_distribution.py, lines 266-329)

The four regex detectors are embedded as executable scanners over
`List Char`.  Each scanner decides "the pattern has a match somewhere in the
text", which is exactly the condition under which `re.findall` returns a
non-empty list (none of the patterns can match the empty string and none has
capturing groups).  `\w`, `\d`, `\s`, `[A-Z]`, `[a-z]` are modelled over the
ASCII range. -/

/-- Python `\w` (ASCII): letters, digits, underscore. -/
def wordChar (c : Char) : Bool := c.isAlphanum || decide (c = '_')

/-- Character class `[\w\.-]` of the email pattern. -/
def emailChar (c : Char) : Bool := wordChar c || decide (c = '.') || decide (c = '-')

/-- Separator class `[-.\s]` of the phone pattern. -/
def sepChar (c : Char) : Bool := decide (c = '-') || decide (c = '.') || isSpaceChar c

/-- Does the text start with `.` followed by a `\w` character?  (End of the
email pattern: the final `\.\w+`.) -/
def dotThenWord : List Char → Bool
  | c :: d :: _ => decide (c = '.') && wordChar d
  | _ => false

/-- Does `[\w\.-]+\.\w+` match a prefix of the text?  One `[\w.-]` character
is consumed per step until the closing `.`+`\w` is found. -/
def emailTail : List Char → Bool
  | [] => false
  | c :: rest => emailChar c && (dotThenWord rest || emailTail rest)

/-- Scanner for `EMAIL_PATTERN = [\w\.-]+@[\w\.-]+\.\w+`: a match exists iff
some `@` is immediately preceded by an `[\w.-]` character (the `+` requires
at least one) and followed by a prefix matching `[\w\.-]+\.\w+`.  `prevOk`
records whether the previous character was in `[\w.-]`. -/
def hasEmailFrom (prevOk : Bool) : List Char → Bool
  | [] => false
  | c :: rest => (decide (c = '@') && prevOk && emailTail rest) || hasEmailFrom (emailChar c) rest

/-- A match of the email pattern exists somewhere in the text. -/
def hasEmail (s : List Char) : Bool := hasEmailFrom false s

/-- Consume exactly `n` `\d` digits. -/
def dropDigits : Nat → List Char → Option (List Char)
  | 0, t => some t
  | _ + 1, [] => none
  | n + 1, c :: rest => if c.isDigit then dropDigits n rest else none

/-- Both alternatives of an optional `[-.\s]?` separator. -/
def sepOpt (t : List Char) : List (List Char) :=
  t :: (match t with
        | c :: rest => if sepChar c then [rest] else []
        | [] => [])

/-- Both alternatives of the optional `\(?`. -/
def parenOpenOpt (t : List Char) : List (List Char) :=
  t :: (match t with
        | c :: rest => if c = '(' then [rest] else []
        | [] => [])

/-- Both alternatives of the optional `\)?`. -/
def parenCloseOpt (t : List Char) : List (List Char) :=
  t :: (match t with
        | c :: rest => if c = ')' then [rest] else []
        | [] => [])

/-- Both alternatives of the optional `\+?`. -/
def plusOpt (t : List Char) : List (List Char) :=
  t :: (match t with
        | c :: rest => if c = '+' then [rest] else []
        | [] => [])

/-- Remainders after consuming 1, 2 or 3 digits (`\d{1,3}`). -/
def digits1to3 (t : List Char) : List (List Char) :=
  match t with
  | c :: r1 =>
    if c.isDigit then
      r1 :: (match r1 with
             | d :: r2 =>
               if d.isDigit then
                 r2 :: (match r2 with
                        | e :: r3 => if e.isDigit then [r3] else []
                        | [] => [])
               else []
             | [] => [])
    else []
  | [] => []

/-- Remainders after the optional international prefix
`(?:\+?\d{1,3}[-.\s]?)?`. -/
def intlOpt (t : List Char) : List (List Char) :=
  t :: ((plusOpt t).flatMap fun t1 => (digits1to3 t1).flatMap fun t2 => sepOpt t2)

/-- Does `\(?\d{3}\)?[-.\s]?\d{3}[-.\s]?\d{4}` match a prefix of the text
(for some choice of the optional parts)? -/
def phoneCore (t : List Char) : Bool :=
  (parenOpenOpt t).any fun t1 =>
    match dropDigits 3 t1 with
    | none => false
    | some t2 =>
      (parenCloseOpt t2).any fun t3 =>
        (sepOpt t3).any fun t4 =>
          match dropDigits 3 t4 with
          | none => false
          | some t5 =>
            (sepOpt t5).any fun t6 => (dropDigits 4 t6).isSome

/-- Does `PHONE_PATTERN = (?:\+?\d{1,3}[-.\s]?)?\(?\d{3}\)?[-.\s]?\d{3}[-.\s]?\d{4}`
match a prefix of the text? -/
def phoneAt (t : List Char) : Bool := (intlOpt t).any phoneCore

/-- A match of the phone pattern exists somewhere in the text (the pattern
has no anchors, so a match may start at any position). -/
def hasPhone : List Char → Bool
  | [] => false
  | c :: rest => phoneAt (c :: rest) || hasPhone rest

/-- Does `\d{10,}\b` match here: take the maximal digit run (backtracking
cannot stop earlier, since a digit is a word character and would break the
trailing `\b`), require length at least 10 and a non-word character or end of
text after it. -/
def longRunAt (t : List Char) : Bool :=
  decide (10 ≤ (t.takeWhile Char.isDigit).length) &&
    (match t.drop (t.takeWhile Char.isDigit).length with
     | [] => true
     | c :: _ => !wordChar c)

/-- Scanner for `LONG_DIGITS_PATTERN = \b\d{10,}\b`; `prevWord` records
whether the previous character was a word character (for the leading `\b`). -/
def hasLongDigitsFrom (prevWord : Bool) : List Char → Bool
  | [] => false
  | c :: rest => (!prevWord && longRunAt (c :: rest)) || hasLongDigitsFrom (wordChar c) rest

/-- A match of the long-digit-run pattern exists somewhere in the text. -/
def hasLongDigits (s : List Char) : Bool := hasLongDigitsFrom false s

/-- Strip an expected (lowercase) character sequence case-insensitively. -/
def stripCI : List Char → List Char → Option (List Char)
  | [], t => some t
  | _ :: _, [] => none
  | e :: es, c :: cs => if c.toLower = e then stripCI es cs else none

/-- After the spaces of `\s+`: with `re.IGNORECASE`, `[A-Z][a-z]+` matches
two or more consecutive ASCII letters. -/
def afterSpaces : List Char → Bool
  | [] => false
  | c :: rest =>
    if isSpaceChar c then afterSpaces rest
    else c.isAlpha && (match rest with
      | d :: _ => d.isAlpha
      | [] => false)

/-- Suffix check `\s+[A-Z][a-z]+` (case-insensitive). -/
def afterTitle : List Char → Bool
  | c :: rest => isSpaceChar c && afterSpaces rest
  | [] => false

/-- Does `(?:Mr\.|Mrs\.|Ms\.|Dr\.)\s+[A-Z][a-z]+` (with `re.IGNORECASE`)
match a prefix of the text? -/
def nameAt (t : List Char) : Bool :=
  [chars "mr.", chars "mrs.", chars "ms.", chars "dr."].any fun title =>
    match stripCI title t with
    | none => false
    | some rest => afterTitle rest

/-- Scanner for `NAME_PATTERN = \b(?:Mr\.|Mrs\.|Ms\.|Dr\.)\s+[A-Z][a-z]+`
(case-insensitive); `prevWord` tracks the leading `\b`. -/
def hasNameFrom (prevWord : Bool) : List Char → Bool
  | [] => false
  | c :: rest => (!prevWord && nameAt (c :: rest)) || hasNameFrom (wordChar c) rest

/-- A match of the honorific+name pattern exists somewhere in the text. -/
def hasName (s : List Char) : Bool := hasNameFrom false s

namespace PIIFinalCheck

/-- Model of `PIIFinalCheck.check`: the returned `has_pii` flag is true iff
any of the four detectors finds a match.  The `found_pii` example list
(matched substrings, capped at 3 per kind) is abstracted to these presence
booleans — it is non-empty exactly when some detector fires. -/
def check (text : List Char) : Bool :=
  hasEmail text || hasPhone text || hasLongDigits text || hasName text

/-- Report dict of `PIIFinalCheck.verify_email` (`html_clean`, `plain_clean`,
`overall_clean`; the per-body example lists are abstracted as in `check`). -/
structure PIIReport where
  html_clean : Bool
  plain_clean : Bool
  overall_clean : Bool
deriving DecidableEq, Repr

/-- Model of `PIIFinalCheck.verify_email`: check both rendered bodies and
return `(is_clean, report)`. -/
def verify_email (html_body plain_body : List Char) : Bool × PIIReport :=
  let html_has_pii := check html_body
  let plain_has_pii := check plain_body
  let report : PIIReport :=
    { html_clean := !html_has_pii
      plain_clean := !plain_has_pii
      overall_clean := !(html_has_pii || plain_has_pii) }
  (report.overall_clean, report)

end PIIFinalCheck

theorem hasEmailFrom_append {t : List Char} (ht : ∀ b, hasEmailFrom b t = true) :
    ∀ (p : List Char) (b : Bool), hasEmailFrom b (p ++ t) = true := by
  intro p
  induction p with
  | nil => intro b; exact ht b
  | cons c p ih =>
    intro b
    simp only [List.cons_append, hasEmailFrom, Bool.or_eq_true]
    right
    exact ih (emailChar c)

theorem hasPhone_append {t : List Char} (ht : hasPhone t = true) :
    ∀ p : List Char, hasPhone (p ++ t) = true := by
  intro p
  induction p with
  | nil => exact ht
  | cons c p ih =>
    simp only [List.cons_append, hasPhone, Bool.or_eq_true]
    right
    exact ih

theorem hasEmail_user_example (b : Bool) (q : List Char) :
    hasEmailFrom b (chars "user@example.com" ++ q) = true := rfl

theorem hasPhone_five_five_five (s : List Char) :
    hasPhone (chars "555-123-4567" ++ s) = true := rfl

set_option maxRecDepth 100000 in
/-- C9.  The pre-send PII detector classifies any body containing
`user@example.com` as dirty, any body containing `555-123-4567` as dirty,
and classifies the body consisting only of the three masking placeholder
tokens as clean. -/
theorem c9_pii_detector_classification (p q r s : List Char) :
    PIIFinalCheck.check (p ++ chars "user@example.com" ++ q) = true
    ∧ PIIFinalCheck.check (r ++ chars "555-123-4567" ++ s) = true
    ∧ PIIFinalCheck.check (chars "***@***.*** ***-***-**** **********") = false := by
  refine ⟨?_, ?_, by decide⟩
  · have he : hasEmail (p ++ (chars "user@example.com" ++ q)) = true :=
      hasEmailFrom_append (fun b => hasEmail_user_example b q) p false
    simp only [PIIFinalCheck.check, Bool.or_eq_true]
    rw [List.append_assoc]
    exact Or.inl (Or.inl (Or.inl he))
  · have hp : hasPhone (r ++ (chars "555-123-4567" ++ s)) = true :=
      hasPhone_append (hasPhone_five_five_five s) r
    simp only [PIIFinalCheck.check, Bool.or_eq_true]
    rw [List.append_assoc]
    exact Or.inl (Or.inl (Or.inr hp))

/-! ## Layer 4: `DeliverySystem` (src/layer4_distribution.py, lines 332-453)

The SMTP world is modelled by a function from the attempt number (1-based) to
that attempt's outcome; `time.sleep` calls are modelled by the returned list
of sleep durations. -/

/-- Outcome of one SMTP attempt: success, `SMTPAuthenticationError`, another
`SMTPException`, or any other exception. -/
inductive AttemptOutcome where
  | success
  | authError (msg : String)
  | smtpError (msg : String)
  | otherError (msg : String)
deriving DecidableEq, Repr

/-- Classification used by the spec: every failure other than an
authentication failure is transient (retried). -/
def AttemptOutcome.isTransient : AttemptOutcome → Bool
  | .smtpError _ => true
  | .otherError _ => true
  | _ => false

/-- Metadata dict of `send_email`.  `Metadata.emptyDict` (all fields absent)
models the literal `{}` returned on missing configuration; the loop's dict
has `attempts`, `sent_at` and `tracking_enabled` present.  The `sent_at`
timestamp is represented by the attempt number at which the send succeeded. -/
structure Metadata where
  attempts : Option Nat
  sent_at : Option Nat
  tracking_enabled : Option Bool
deriving DecidableEq, Repr

/-- The empty metadata dict `{}`. -/
def Metadata.emptyDict : Metadata := ⟨none, none, none⟩

/-- Configuration of `DeliverySystem` after `__init__`: optional host, user
and password strings, the (defaulted) integer port, and the retry knobs. -/
structure DeliveryConfig where
  smtp_host : Option String
  smtp_port : Nat
  smtp_user : Option String
  smtp_pass : Option String
  max_retries : Nat
  retry_delay : Nat
deriving DecidableEq, Repr

/-- Python truthiness test of `not all([...])` for an optional string:
missing (`None`) or empty strings are falsy. -/
def falsyStr : Option String → Bool
  | none => true
  | some s => decide (s = "")

/-- The guard `not all([self.smtp_host, self.smtp_port, self.smtp_user,
self.smtp_pass])`. -/
def missing_config (cfg : DeliveryConfig) : Bool :=
  falsyStr cfg.smtp_host || decide (cfg.smtp_port = 0) ||
    falsyStr cfg.smtp_user || falsyStr cfg.smtp_pass

/-- Retry loop of `send_email`.  `fuel` counts the attempts still allowed
(initially `max_retries`), so `fuel = 1` (after pattern-matching off one
attempt, `fuel' = 0`) corresponds to `attempt == max_retries`, where the code
stops retrying; `sleeps` accumulates the `time.sleep(retry_delay)` calls. -/
def sendAttempts (outcomes : Nat → AttemptOutcome) (retry_delay : Nat) (track : Bool) :
    Nat → Nat → List Nat → String × String × Metadata × List Nat
  | _, 0, sleeps =>
    ("ERROR", "Max retries exceeded",
      { attempts := some 0, sent_at := none, tracking_enabled := some track }, sleeps)
  | attempt, fuel + 1, sleeps =>
    let meta : Metadata :=
      { attempts := some attempt, sent_at := none, tracking_enabled := some track }
    match outcomes attempt with
    | .success =>
      ("SENT", "", { meta with sent_at := some attempt }, sleeps)
    | .authError m =>
      ("ERROR", "SMTP authentication failed: " ++ m, meta, sleeps)
    | .smtpError m =>
      if fuel = 0 then ("ERROR", "SMTP error: " ++ m, meta, sleeps)
      else sendAttempts outcomes retry_delay track (attempt + 1) fuel (sleeps ++ [retry_delay])
    | .otherError m =>
      if fuel = 0 then ("ERROR", "Unexpected error: " ++ m, meta, sleeps)
      else sendAttempts outcomes retry_delay track (attempt + 1) fuel (sleeps ++ [retry_delay])

/-- Model of `DeliverySystem.send_email`: returns the `(status, error,
metadata)` triple of the code plus the list of sleep durations performed.
If max_retries = 0 the loop body never runs and the code falls through to the
final return with the initial metadata (`attempts = 0`). -/
def send_email (cfg : DeliveryConfig) (track : Bool) (outcomes : Nat → AttemptOutcome) :
    String × String × Metadata × List Nat :=
  if missing_config cfg then
    ("ERROR", "Missing SMTP configuration", Metadata.emptyDict, [])
  else
    sendAttempts outcomes cfg.retry_delay track 1 cfg.max_retries []

/-- C4.  With the default configuration (3 attempts, 5-second delay):
an authentication failure on attempt 1 yields ERROR with attempts = 1 and no
retry (no sleep); transient failures on attempts 1-2 followed by success on
attempt 3 yield SENT with attempts = 3 after two 5-second sleeps; three
transient SMTP failures yield ERROR carrying the last error message with
attempts = 3. -/
theorem c4_delivery_retry_state_machine (cfg : DeliveryConfig) (track : Bool)
    (o : Nat → AttemptOutcome) (a m1 m2 m3 : String)
    (hcfg : missing_config cfg = false) (hr : cfg.max_retries = 3)
    (hd : cfg.retry_delay = 5) :
    (o 1 = .authError a →
      send_email cfg track o =
        ("ERROR", "SMTP authentication failed: " ++ a,
          { attempts := some 1, sent_at := none, tracking_enabled := some track }, []))
    ∧ ((o 1).isTransient = true → (o 2).isTransient = true → o 3 = .success →
      send_email cfg track o =
        ("SENT", "",
          { attempts := some 3, sent_at := some 3, tracking_enabled := some track }, [5, 5]))
    ∧ (o 1 = .smtpError m1 → o 2 = .smtpError m2 → o 3 = .smtpError m3 →
      send_email cfg track o =
        ("ERROR", "SMTP error: " ++ m3,
          { attempts := some 3, sent_at := none, tracking_enabled := some track }, [5, 5])) := by
  unfold send_email
  rw [hcfg, hr, hd]
  simp only [Bool.false_eq_true, if_false]
  refine ⟨?_, ?_, ?_⟩
  · intro h1
    simp [sendAttempts, h1]
  · intro h1 h2 h3
    cases ho1 : o 1 <;> rw [ho1] at h1 <;> simp [AttemptOutcome.isTransient] at h1 <;>
      cases ho2 : o 2 <;> rw [ho2] at h2 <;> simp [AttemptOutcome.isTransient] at h2 <;>
      simp [sendAttempts, ho1, ho2, h3]
  · intro h1 h2 h3
    simp [sendAttempts, h1, h2, h3]

/-- C4 witness: the three retry scenarios at concrete outcome functions and a
concrete complete configuration. -/
theorem c4_witness :
    send_email ⟨some "smtp.gmail.com", 587, some "u", some "p", 3, 5⟩ true
        (fun _ => .authError "bad credentials") =
      ("ERROR", "SMTP authentication failed: bad credentials",
        { attempts := some 1, sent_at := none, tracking_enabled := some true }, [])
    ∧ send_email ⟨some "smtp.gmail.com", 587, some "u", some "p", 3, 5⟩ true
        (fun n => if n ≤ 2 then .smtpError "connection reset" else .success) =
      ("SENT", "",
        { attempts := some 3, sent_at := some 3, tracking_enabled := some true }, [5, 5])
    ∧ send_email ⟨some "smtp.gmail.com", 587, some "u", some "p", 3, 5⟩ true
        (fun n => .smtpError ("fail " ++ toString n)) =
      ("ERROR", "SMTP error: " ++ "fail 3",
        { attempts := some 3, sent_at := none, tracking_enabled := some true }, [5, 5]) :=
  ⟨(c4_delivery_retry_state_machine _ true _ "bad credentials" "" "" ""
      (by decide) rfl rfl).1 rfl,
   ((c4_delivery_retry_state_machine _ true _ "" "" "" ""
      (by decide) rfl rfl).2.1 (by decide) (by decide) (by decide)),
   ((c4_delivery_retry_state_machine _ true _ "" ("fail " ++ toString 1)
      ("fail " ++ toString 2) ("fail " ++ toString 3) (by decide) rfl rfl).2.2 rfl rfl rfl)⟩

/-- C10.  When any of host, port, user or password is unset (falsy),
`send_email` returns immediately: status ERROR, message "Missing SMTP
configuration", the empty metadata dict, no sleeps, and the result does not
depend on the SMTP world at all (no send attempt is made). -/
theorem c10_missing_config_short_circuit (cfg : DeliveryConfig) (track : Bool)
    (o o' : Nat → AttemptOutcome) (h : missing_config cfg = true) :
    send_email cfg track o = ("ERROR", "Missing SMTP configuration", Metadata.emptyDict, [])
    ∧ send_email cfg track o = send_email cfg track o' := by
  unfold send_email
  rw [h]
  exact ⟨rfl, rfl⟩

/-- C10 witness: a configuration with no password set. -/
theorem c10_witness :
    send_email ⟨some "smtp.gmail.com", 587, some "u", none, 3, 5⟩ false (fun _ => .success) =
      ("ERROR", "Missing SMTP configuration", Metadata.emptyDict, []) :=
  (c10_missing_config_short_circuit ⟨some "smtp.gmail.com", 587, some "u", none, 3, 5⟩
    false (fun _ => .success) (fun _ => .success) (by decide)).1

/-! ## Pre-send PII gate (src/send_weekly_pulse.py, lines 120-288)

`send_pulse_email` renders the document, runs the blocking PII gate, and
delivers via Gmail SMTP.  The model takes the two rendered bodies as inputs
(rendering is plain string formatting), abstracts the masking pass
`PIIScrubber.scrub_and_mask` as the function parameter `scrub` (the gate's
control flow does not depend on how the regex substitutions rewrite the
text), and abstracts the SMTP world as for `send_email`. -/

/-- Result dict of `send_pulse_email`: the BLOCKED dict with its PII report,
the dry-run dict, or the delivery outcome dict. -/
inductive PulseSendResult where
  | blocked (reason : String) (report : PIIFinalCheck.PIIReport)
  | dryRunDone
  | completed (status : String) (error : String) (metadata : Metadata) (sleeps : List Nat)
deriving DecidableEq, Repr

/-- Delivery step of `send_pulse_email` after the gate passes: a
`DeliverySystem('smtp.gmail.com', 587, sender, password, 3, 5)` send with
read-receipt tracking enabled. -/
def sendStepAfterGate (sender password : Option String)
    (outcomes : Nat → AttemptOutcome) : PulseSendResult :=
  let r := send_email ⟨some "smtp.gmail.com", 587, sender, password, 3, 5⟩ true outcomes
  .completed r.1 r.2.1 r.2.2.1 r.2.2.2

/-- Model of the gate and delivery logic of `send_pulse_email`: check both
rendered bodies; if dirty, apply one masking pass and re-check exactly once;
if still dirty, return the BLOCKED result without any delivery; otherwise
fall through to the dry-run check and the Gmail delivery. -/
def send_pulse_email (scrub : List Char → List Char) (sender password : Option String)
    (outcomes : Nat → AttemptOutcome) (dry_run : Bool)
    (html_body plain_body : List Char) : PulseSendResult :=
  let checked := PIIFinalCheck.verify_email html_body plain_body
  if checked.1 then
    (if dry_run then .dryRunDone else sendStepAfterGate sender password outcomes)
  else
    let html2 := scrub html_body
    let plain2 := scrub plain_body
    let rechecked := PIIFinalCheck.verify_email html2 plain2
    if rechecked.1 then
      (if dry_run then .dryRunDone else sendStepAfterGate sender password outcomes)
    else
      .blocked "PII detected after scrubbing" rechecked.2

/-- C3.  When either rendered body is dirty, exactly one masking pass is
applied and detection re-runs exactly once: if the singly-masked bodies are
still dirty the result is the BLOCKED outcome carrying the re-check's report
with `overall_clean = false`, and the result does not depend on the SMTP
world (no send attempt is made, no further remediation). -/
theorem c3_pii_gate_blocks (scrub : List Char → List Char) (sender password : Option String)
    (o o' : Nat → AttemptOutcome) (dry : Bool) (html plain : List Char)
    (h1 : (PIIFinalCheck.verify_email html plain).1 = false)
    (h2 : (PIIFinalCheck.verify_email (scrub html) (scrub plain)).1 = false) :
    send_pulse_email scrub sender password o dry html plain =
      .blocked "PII detected after scrubbing"
        (PIIFinalCheck.verify_email (scrub html) (scrub plain)).2
    ∧ (PIIFinalCheck.verify_email (scrub html) (scrub plain)).2.overall_clean = false
    ∧ send_pulse_email scrub sender password o dry html plain =
        send_pulse_email scrub sender password o' dry html plain := by
  refine ⟨?_, ?_, ?_⟩
  · simp [send_pulse_email, h1, h2]
  · have hoc : (PIIFinalCheck.verify_email (scrub html) (scrub plain)).1 =
        (PIIFinalCheck.verify_email (scrub html) (scrub plain)).2.overall_clean := rfl
    rw [← hoc]
    exact h2
  · simp [send_pulse_email, h1, h2]

set_option maxRecDepth 100000 in
/-- C3 witness: an identity masking pass (so the bodies stay dirty after the
single masking attempt) on a body containing an email address; the gate
blocks. -/
theorem c3_witness :
    (PIIFinalCheck.verify_email (chars "Contact: user@example.com")
        (chars "Contact: user@example.com")).1 = false
    ∧ send_pulse_email id (some "sender@gmail.com") (some "pw") (fun _ => .success) false
        (chars "Contact: user@example.com") (chars "Contact: user@example.com") =
      .blocked "PII detected after scrubbing"
        (PIIFinalCheck.verify_email (id (chars "Contact: user@example.com"))
          (id (chars "Contact: user@example.com"))).2 :=
  ⟨by decide,
   (c3_pii_gate_blocks id (some "sender@gmail.com") (some "pw")
      (fun _ => .success) (fun _ => .success) false
      (chars "Contact: user@example.com") (chars "Contact: user@example.com")
      (by decide) (by decide)).1⟩
